import Mathlib

/-!
Shallow embedding of the core of `bot.py` (911-Intel-Bot): the sliding-window
`RateLimiter` (`add_call`, `get_retry_after`), the Gemini retry loop
(`get_gemini_response`), the `forget` command, and the daily
`check_conversation_age` sweep.  Time is modelled as `ℚ` (seconds, as
returned by `time.time()`); `datetime` arithmetic in the conversation store
is likewise modelled in seconds.
-/

/-- Python's two-argument `max`, as used in `max(0, ...)`. -/
def qmax (a b : ℚ) : ℚ := if a ≤ b then b else a

/-- Lower-casing of one ASCII character, modelling `str.lower()` on the
ASCII command arguments `forget` receives (`"user"`, `"all"`, ...). -/
def lowerChar (c : Char) : Char :=
  if 'A' ≤ c ∧ c ≤ 'Z' then Char.ofNat (c.toNat + 32) else c

/-- Model of `target.lower()` on ASCII strings. -/
def lower (s : String) : String := ⟨s.data.map lowerChar⟩

/-- The oldest timestamp in a list, mirroring Python's `min(list)`.
Returns `0` on the empty list (Python would raise; all uses are guarded by
a non-emptiness check, as in the source). -/
def listMin : List ℚ → ℚ
  | [] => 0
  | t :: rest => rest.foldl min t

/-- State of one `RateLimiter` instance (`bot.py` lines 59-87).
`self.calls` is a `defaultdict(list)`: we model it as the list of keys
present in the table (`keys`) together with the per-key timestamp lists
(`records`); a key absent from `keys` has no entry, and all reachable
states keep `records k = []` for such keys. -/
structure RateLimiter where
  max_calls : ℕ
  time_frame : ℚ
  keys : List String
  records : String → List ℚ

/-- Constructor `RateLimiter.__init__`: empty `defaultdict(list)` table. -/
def RateLimiter.init (max_calls : ℕ) (time_frame : ℚ) : RateLimiter :=
  ⟨max_calls, time_frame, [], fun _ => []⟩

/-- The `defaultdict` lookup `self.calls[key]`: inserts `key` with an empty
list when absent, otherwise leaves the table unchanged. -/
def RateLimiter.touch (rl : RateLimiter) (key : String) : RateLimiter :=
  if key ∈ rl.keys then rl
  else { rl with keys := rl.keys ++ [key],
                 records := fun k => if k = key then [] else rl.records k }

/-- Method `RateLimiter.add_call` (`bot.py` 65-79): prune the key's records to those
with `current_time - call_time < time_frame`, store the pruned list, then
return `true` (rate limited, nothing appended) when the pruned length is
already `≥ max_calls`, else append `current_time` and return `false`. -/
def RateLimiter.add_call (rl : RateLimiter) (key : String) (current_time : ℚ) :
    Bool × RateLimiter :=
  let rl0 := rl.touch key
  let pruned := (rl0.records key).filter
    (fun call_time => decide (current_time - call_time < rl0.time_frame))
  if rl0.max_calls ≤ pruned.length then
    (true, { rl0 with records := fun k => if k = key then pruned else rl0.records k })
  else
    (false, { rl0 with records := fun k => if k = key then pruned ++ [current_time] else rl0.records k })

/-- Method `RateLimiter.get_retry_after` (`bot.py` 81-87): `0` when the key has no
recorded calls, else `max 0 (time_frame - (now - min(calls[key])))`.
No pruning is performed; the only state change is the `defaultdict`
insertion performed by reading `self.calls[key]`. -/
def RateLimiter.get_retry_after (rl : RateLimiter) (key : String) (now : ℚ) :
    ℚ × RateLimiter :=
  let rl0 := rl.touch key
  if rl0.records key = [] then (0, rl0)
  else
    let oldest_call := listMin (rl0.records key)
    (qmax 0 (rl0.time_frame - (now - oldest_call)), rl0)

/-- Follows the spec's words for `retry_after` (spec §4.1): "Computes, after
pruning, the time remaining until the oldest recorded call exits the window:
`max(0, window_duration - (now - oldest_call_time))`. Returns zero duration
if the key has no recorded calls."  The prune keeps exactly the records with
age `< window_duration`, as spec §4.1 defines pruning. -/
def retry_after_spec (rl : RateLimiter) (key : String) (now : ℚ) : ℚ :=
  let surviving := (rl.records key).filter
    (fun call_time => decide (now - call_time < rl.time_frame))
  if surviving = [] then 0
  else qmax 0 (rl.time_frame - (now - listMin surviving))

/-- Run a sequence of `add_call` invocations (key, time) against a limiter
and collect the timestamps of the calls *admitted* for `key`
(`add_call` returned `false`). -/
def admittedTimes (key : String) : RateLimiter → List (String × ℚ) → List ℚ
  | _, [] => []
  | rl, (k, s) :: rest =>
    let res := rl.add_call k s
    (if k = key ∧ res.1 = false then [s] else []) ++ admittedTimes key res.2 rest

/-- Outcome of one `conversation.send_message` attempt inside
`get_gemini_response`: a successful response text, a
`BlockedPromptException`, or any other exception (transient, carrying its
message text). -/
inductive Outcome
  | success (text : String)
  | blocked
  | transient (err : String)

/-- Observable result of `get_gemini_response`: the returned text (`none`
models the Python `None` fall-through of an empty loop), the sequence of
`asyncio.sleep` durations performed, and the number of `send_message`
attempts made. -/
structure GeminiResult where
  text : Option String
  sleeps : List ℕ
  attempts : ℕ
deriving DecidableEq

/-- Fixed refusal text returned on `BlockedPromptException` (`bot.py` 145). -/
def blockedText : String :=
  "I'm sorry, but I cannot respond to that request as it may violate content safety guidelines."

/-- Error text returned when retries are exhausted (`bot.py` 152). -/
def techDifficultiesText (err : String) : String :=
  "I'm experiencing technical difficulties. Please try again later. Error: " ++ err

/-- The loop `for attempt in range(max_retries)` of `get_gemini_response`
(`bot.py` 139-152), with `remaining = max_retries - attempt` as structural
fuel: `remaining = 0` means the range is exhausted (Python returns `None`);
`0 < remaining` after consuming this iteration means
`attempt < max_retries - 1`, i.e. a retry is still allowed, so the code
sleeps `retry_delay` and doubles it; otherwise it returns the technical
difficulties text. -/
def geminiAttempt (outcomes : ℕ → Outcome) : ℕ → ℕ → ℕ → GeminiResult
  | 0, _, _ => ⟨none, [], 0⟩
  | remaining + 1, attempt, retry_delay =>
    match outcomes attempt with
    | .success text => ⟨some text, [], 1⟩
    | .blocked => ⟨some blockedText, [], 1⟩
    | .transient _err =>
      if 0 < remaining then
        let r := geminiAttempt outcomes remaining (attempt + 1) (retry_delay * 2)
        ⟨r.text, retry_delay :: r.sleeps, r.attempts + 1⟩
      else
        ⟨some (techDifficultiesText _err), [], 1⟩

/-- Function `get_gemini_response` (`bot.py` 135-152): `max_retries = 3`,
`retry_delay = 2`, starting at attempt `0`. -/
def get_gemini_response (outcomes : ℕ → Outcome) : GeminiResult :=
  geminiAttempt outcomes 3 0 2

/-- One entry of the `conversations` dict (`bot.py` 122-125): the chat
object (opaque here) and its creation time (seconds). -/
structure Session where
  chat : String
  created_at : ℚ
deriving DecidableEq

/-- The reply embed sent by the `forget` command, reduced to its decisive
content: the "I've cleared N conversation(s)!" message, the "No
conversations were found to clear." message, or the admin-only
"Permission Denied" rejection. -/
inductive ForgetReply
  | cleared (count : ℕ) (target_description : String)
  | noneFound
  | permissionDenied
deriving DecidableEq

/-- The tail of `forget` (`bot.py` 277-290): delete every key of
`keys_to_remove` that is present, then report `len(keys_to_remove)` as the
cleared count when the list is non-empty, else "none found". -/
def finishForget (conversations : List (String × Session))
    (keys_to_remove : List String) (target_description : String) :
    List (String × Session) × ForgetReply :=
  (conversations.filter (fun p => decide (p.1 ∉ keys_to_remove)),
   if keys_to_remove = [] then .noneFound
   else .cleared keys_to_remove.length target_description)

/-- The `forget` command (`bot.py` 248-295).  `conversations` is the global
dict (association list keyed by `"user:" ++ author_id`), `is_admin` models
`ctx.author.guild_permissions.administrator`.  The unauthorized
`target = "all"` branch sends "Permission Denied" and returns before the
deletion loop. -/
def forget (conversations : List (String × Session)) (author_id : String)
    (target : String) (is_admin : Bool) :
    List (String × Session) × ForgetReply :=
  let conversation_key := "user:" ++ author_id
  if lower target = "user" then
    finishForget conversations [conversation_key] "your conversation history"
  else if lower target = "all" ∧ is_admin = true then
    finishForget conversations (conversations.map Prod.fst) "all conversation histories"
  else if lower target = "all" then
    (conversations, .permissionDenied)
  else
    finishForget conversations [] ""

/-- `timedelta(days=7)` in seconds. -/
def sevenDays : ℚ := 7 * 86400

/-- The daily sweep `check_conversation_age` (`bot.py` 934-947): delete
every conversation with `current_time - created_at > timedelta(days=7)`,
counting the deletions; returns the surviving dict and `reset_count`. -/
def check_conversation_age (conversations : List (String × Session))
    (current_time : ℚ) : List (String × Session) × ℕ :=
  match conversations with
  | [] => ([], 0)
  | p :: rest =>
    let r := check_conversation_age rest current_time
    if sevenDays < current_time - p.2.created_at then (r.1, r.2 + 1)
    else (p :: r.1, r.2)

/-- First step of the spec's end-to-end example 1: `max_calls = 3`,
`window = 10`, call on key `"u"` at `t = 0`. -/
def exCall1 : Bool × RateLimiter := (RateLimiter.init 3 10).add_call "u" 0

/-- Example-1 trace: call at `t = 1`. -/
def exCall2 : Bool × RateLimiter := exCall1.2.add_call "u" 1

/-- Example-1 trace: call at `t = 2`. -/
def exCall3 : Bool × RateLimiter := exCall2.2.add_call "u" 2

/-- Example-1 trace: call at `t = 3`. -/
def exCall4 : Bool × RateLimiter := exCall3.2.add_call "u" 3

/-- Example-1 trace: `get_retry_after` queried at `t = 3`. -/
def exRetry : ℚ × RateLimiter := exCall4.2.get_retry_after "u" 3

/-- Example-1 trace: call at `t = 11`. -/
def exCall5 : Bool × RateLimiter := exRetry.2.add_call "u" 11

/-! ### Helper lemmas -/

theorem qmax_eq_max (a b : ℚ) : qmax a b = max a b := by
  rw [qmax, max_def]

theorem touch_of_mem {rl : RateLimiter} {key : String} (h : key ∈ rl.keys) :
    rl.touch key = rl := by
  simp [RateLimiter.touch, h]

theorem touch_max_calls (rl : RateLimiter) (key : String) :
    (rl.touch key).max_calls = rl.max_calls := by
  unfold RateLimiter.touch; split <;> rfl

theorem touch_time_frame (rl : RateLimiter) (key : String) :
    (rl.touch key).time_frame = rl.time_frame := by
  unfold RateLimiter.touch; split <;> rfl

theorem touch_records_self {rl : RateLimiter} {key : String}
    (h : key ∉ rl.keys → rl.records key = []) :
    (rl.touch key).records key = rl.records key := by
  by_cases hmem : key ∈ rl.keys
  · rw [touch_of_mem hmem]
  · simp [RateLimiter.touch, hmem, h hmem]

theorem touch_records_ne {rl : RateLimiter} {key k : String} (h : k ≠ key) :
    (rl.touch key).records k = rl.records k := by
  by_cases hmem : key ∈ rl.keys
  · rw [touch_of_mem hmem]
  · simp [RateLimiter.touch, hmem, h]

theorem touch_mem_keys (rl : RateLimiter) (key : String) :
    key ∈ (rl.touch key).keys := by
  by_cases hmem : key ∈ rl.keys
  · rw [touch_of_mem hmem]; exact hmem
  · simp [RateLimiter.touch, hmem]

theorem touch_keys_of_mem {rl : RateLimiter} {key k : String} (h : k ∈ rl.keys) :
    k ∈ (rl.touch key).keys := by
  by_cases hmem : key ∈ rl.keys
  · rw [touch_of_mem hmem]; exact h
  · simp [RateLimiter.touch, hmem]
    exact Or.inl h

theorem foldl_min_le_init (l : List ℚ) : ∀ a : ℚ, l.foldl min a ≤ a := by
  induction l with
  | nil => intro a; exact le_refl a
  | cons x xs ih =>
    intro a
    exact le_trans (ih (min a x)) (min_le_left a x)

theorem foldl_min_le_mem {x : ℚ} (l : List ℚ) : ∀ a : ℚ, x ∈ l → l.foldl min a ≤ x := by
  induction l with
  | nil => intro a h; exact absurd h (List.not_mem_nil x)
  | cons y ys ih =>
    intro a h
    rcases List.mem_cons.1 h with h2 | h2
    · subst h2
      exact le_trans (foldl_min_le_init ys (min a x)) (min_le_right a x)
    · exact ih (min a y) h2

theorem foldl_min_mem (l : List ℚ) : ∀ a : ℚ, l.foldl min a = a ∨ l.foldl min a ∈ l := by
  induction l with
  | nil => intro a; exact Or.inl rfl
  | cons y ys ih =>
    intro a
    rcases ih (min a y) with h | h
    · rcases min_choice a y with h2 | h2
      · exact Or.inl (by rw [List.foldl_cons, h, h2])
      · refine Or.inr ?_
        rw [List.foldl_cons, h, h2]
        exact List.mem_cons_self y ys
    · exact Or.inr (List.mem_cons_of_mem y h)

theorem listMin_mem {l : List ℚ} (h : l ≠ []) : listMin l ∈ l := by
  match l with
  | t :: rest =>
    show rest.foldl min t ∈ t :: rest
    rcases foldl_min_mem rest t with h2 | h2
    · rw [h2]; exact List.mem_cons_self t rest
    · exact List.mem_cons_of_mem t h2

theorem listMin_le {l : List ℚ} {x : ℚ} (h : x ∈ l) : listMin l ≤ x := by
  match l with
  | t :: rest =>
    show rest.foldl min t ≤ x
    rcases List.mem_cons.1 h with h2 | h2
    · subst h2; exact foldl_min_le_init rest x
    · exact foldl_min_le_mem rest t h2

theorem add_call_max_calls (rl : RateLimiter) (key : String) (s : ℚ) :
    ((rl.add_call key s).2).max_calls = rl.max_calls := by
  simp only [RateLimiter.add_call]
  split <;> exact touch_max_calls rl key

theorem add_call_time_frame (rl : RateLimiter) (key : String) (s : ℚ) :
    ((rl.add_call key s).2).time_frame = rl.time_frame := by
  simp only [RateLimiter.add_call]
  split <;> exact touch_time_frame rl key

theorem add_call_records_ne {rl : RateLimiter} {key k : String} (s : ℚ) (h : k ≠ key) :
    ((rl.add_call key s).2).records k = rl.records k := by
  simp only [RateLimiter.add_call]
  split <;> simp [h, touch_records_ne h]

theorem add_call_mem_keys (rl : RateLimiter) (key : String) (s : ℚ) :
    key ∈ ((rl.add_call key s).2).keys := by
  simp only [RateLimiter.add_call]
  split <;> exact touch_mem_keys rl key

theorem add_call_keys_of_mem {rl : RateLimiter} {key k : String} (s : ℚ) (h : k ∈ rl.keys) :
    k ∈ ((rl.add_call key s).2).keys := by
  simp only [RateLimiter.add_call]
  split <;> exact touch_keys_of_mem h

theorem filter_window_step (A : List ℚ) (W q s : ℚ) (hqs : q ≤ s) :
    (A.filter (fun r => decide (q - r < W))).filter (fun r => decide (s - r < W)) =
      A.filter (fun r => decide (s - r < W)) := by
  rw [List.filter_filter]
  apply List.filter_congr
  intro r _
  by_cases h : s - r < W
  · have h2 : q - r < W := by linarith
    simp [h, h2]
  · simp [h]

/-! ### Claim theorems -/

/-- Claim C10: `get_retry_after` is not read-only on the limiter's key
mapping: for a key with no prior recorded calls (absent from the
`defaultdict` table) it returns `0` yet inserts an empty record list for
that key, so the key set grows while no `CallRecord` is appended and no
other key's records change. -/
theorem get_retry_after_frame_effect (rl : RateLimiter) (key k : String) (now : ℚ)
    (hkey : key ∉ rl.keys) (hk : k ≠ key) :
    (rl.get_retry_after key now).1 = 0 ∧
    (rl.get_retry_after key now).2.keys = rl.keys ++ [key] ∧
    (rl.get_retry_after key now).2.records key = [] ∧
    (rl.get_retry_after key now).2.records k = rl.records k := by
  simp [RateLimiter.get_retry_after, RateLimiter.touch, hkey, hk]

/-- Witness for C10: an absent key `"u"` queried on a limiter that already
holds a record for `"v"`. -/
theorem get_retry_after_frame_effect_witness :
    ("u" ∉ (((RateLimiter.init 5 60).add_call "v" 0).2).keys) ∧ ("v" ≠ "u") ∧
    (((((RateLimiter.init 5 60).add_call "v" 0).2).get_retry_after "u" 3).1 = 0 ∧
     ((((RateLimiter.init 5 60).add_call "v" 0).2).get_retry_after "u" 3).2.keys =
       (((RateLimiter.init 5 60).add_call "v" 0).2).keys ++ ["u"] ∧
     ((((RateLimiter.init 5 60).add_call "v" 0).2).get_retry_after "u" 3).2.records "u" = [] ∧
     ((((RateLimiter.init 5 60).add_call "v" 0).2).get_retry_after "u" 3).2.records "v" =
       (((RateLimiter.init 5 60).add_call "v" 0).2).records "v") :=
  ⟨by decide, by decide,
   get_retry_after_frame_effect _ "u" "v" 3 (by decide) (by decide)⟩

/-- Claim C2 counterexample: the claim says `get_retry_after` computes its
value *after pruning expired records*, the oldest call being the oldest
record *surviving the prune*.  At the reachable state with recorded calls
`[0, 5]` (window `10`), queried at `now = 11`, the code (no pruning) uses
the expired oldest record `0` and returns `0`, while the claimed
computation prunes `0` away, uses `5`, and yields `4`. -/
theorem retry_after_prune_divergence :
    ((((RateLimiter.init 5 10).add_call "u" 0).2.add_call "u" 5).2.get_retry_after "u" 11).1 = 0 ∧
    retry_after_spec (((RateLimiter.init 5 10).add_call "u" 0).2.add_call "u" 5).2 "u" 11 = 4 ∧
    ((((RateLimiter.init 5 10).add_call "u" 0).2.add_call "u" 5).2.get_retry_after "u" 11).1 ≠
      retry_after_spec (((RateLimiter.init 5 10).add_call "u" 0).2.add_call "u" 5).2 "u" 11 := by
  refine ⟨?_, ?_, ?_⟩ <;>
    norm_num [RateLimiter.add_call, RateLimiter.touch, RateLimiter.init,
      RateLimiter.get_retry_after, retry_after_spec, listMin, qmax]

/-- Claim C2 (amended): `get_retry_after` performs no pruning: its value is
`max 0 (time_frame - (now - oldest))` where `oldest` is the oldest of *all*
recorded calls for the key (expired ones included), `0` when the key has no
records; its only state change is the `defaultdict` insertion; and its
value never exceeds the after-pruning value described by the spec.
(The canonicity hypothesis says absent keys have no records, which holds in
every reachable state.) -/
theorem get_retry_after_no_prune (rl : RateLimiter) (key : String) (now : ℚ)
    (hcanon : key ∉ rl.keys → rl.records key = []) :
    (rl.get_retry_after key now).1 =
      (if rl.records key = [] then 0
       else qmax 0 (rl.time_frame - (now - listMin (rl.records key)))) ∧
    (rl.get_retry_after key now).2 = rl.touch key ∧
    (rl.get_retry_after key now).1 ≤ retry_after_spec rl key now := by
  have hrec : (rl.touch key).records key = rl.records key := touch_records_self hcanon
  have hval : (rl.get_retry_after key now).1 =
      (if rl.records key = [] then 0
       else qmax 0 (rl.time_frame - (now - listMin (rl.records key)))) := by
    rw [RateLimiter.get_retry_after]
    simp only [hrec, touch_time_frame]
    split <;> rfl
  have hstate : (rl.get_retry_after key now).2 = rl.touch key := by
    rw [RateLimiter.get_retry_after]
    split <;> rfl
  refine ⟨hval, hstate, ?_⟩
  rw [hval, retry_after_spec]
  by_cases hnil : rl.records key = []
  · simp [hnil]
  · simp only [hnil, if_neg]
    set W := rl.time_frame with hW
    set m := listMin (rl.records key) with hm
    by_cases hsurv :
        (rl.records key).filter (fun call_time => decide (now - call_time < W)) = []
    · -- every record is expired, in particular the oldest one
      have hmmem : m ∈ rl.records key := listMin_mem hnil
      have hexp : ¬ (now - m < W) := by
        have := List.filter_eq_nil_iff.1 hsurv m hmmem
        simpa using this
      have hle : W - (now - m) ≤ 0 := by
        push_neg at hexp
        linarith
      simp only [hsurv, if_pos rfl, qmax_eq_max]
      simp [max_eq_left hle]
    · -- the pruned oldest is no older than the full oldest
      have hsm : listMin ((rl.records key).filter
          (fun call_time => decide (now - call_time < W))) ∈
          (rl.records key).filter (fun call_time => decide (now - call_time < W)) :=
        listMin_mem hsurv
      have hmem2 : listMin ((rl.records key).filter
          (fun call_time => decide (now - call_time < W))) ∈ rl.records key :=
        List.mem_of_mem_filter hsm
      have hmle : m ≤ listMin ((rl.records key).filter
          (fun call_time => decide (now - call_time < W))) := listMin_le hmem2
      simp only [hsurv, if_neg, qmax_eq_max]
      exact max_le_max le_rfl (by linarith)

/-- Witness for the amended C2: the limiter holding one record at `t = 0`
with window `10`, queried at `now = 3`. -/
theorem get_retry_after_no_prune_witness :
    ("u" ∉ (((RateLimiter.init 5 10).add_call "u" 0).2).keys →
      (((RateLimiter.init 5 10).add_call "u" 0).2).records "u" = []) ∧
    (((((RateLimiter.init 5 10).add_call "u" 0).2).get_retry_after "u" 3).1 =
       (if (((RateLimiter.init 5 10).add_call "u" 0).2).records "u" = [] then 0
        else qmax 0 ((((RateLimiter.init 5 10).add_call "u" 0).2).time_frame -
          (3 - listMin ((((RateLimiter.init 5 10).add_call "u" 0).2).records "u")))) ∧
     ((((RateLimiter.init 5 10).add_call "u" 0).2).get_retry_after "u" 3).2 =
       (((RateLimiter.init 5 10).add_call "u" 0).2).touch "u" ∧
     ((((RateLimiter.init 5 10).add_call "u" 0).2).get_retry_after "u" 3).1 ≤
       retry_after_spec (((RateLimiter.init 5 10).add_call "u" 0).2) "u" 3) :=
  ⟨fun h => absurd (by norm_num [RateLimiter.init, RateLimiter.add_call,
      RateLimiter.touch] : "u" ∈ (((RateLimiter.init 5 10).add_call "u" 0).2).keys) h,
   get_retry_after_no_prune (((RateLimiter.init 5 10).add_call "u" 0).2) "u" 3
     (fun h => absurd (by norm_num [RateLimiter.init, RateLimiter.add_call,
       RateLimiter.touch] : "u" ∈ (((RateLimiter.init 5 10).add_call "u" 0).2).keys) h)⟩

/-- Claim C7: with `max_calls = 3`, `window = 10`, calls at `t = 0, 1, 2`
are admitted, the call at `t = 3` is rejected with `retry_after = 7`, and
the call at `t = 11` is admitted; the record with age exactly `10` (the
`t = 1` call at `t = 11`) is expired, leaving records `[2, 11]`. -/
theorem limiter_end_to_end_example :
    exCall1.1 = false ∧ exCall2.1 = false ∧ exCall3.1 = false ∧ exCall4.1 = true ∧
      exRetry.1 = 7 ∧ exCall5.1 = false ∧ exCall5.2.records "u" = [2, 11] := by
  norm_num [exCall1, exCall2, exCall3, exCall4, exRetry, exCall5,
    RateLimiter.init, RateLimiter.add_call, RateLimiter.touch,
    RateLimiter.get_retry_after, listMin, qmax, List.cons_ne_nil]

/-- Claim C8: for a key with recorded calls and no new calls added,
`get_retry_after` strictly decreases as time advances while it is positive,
and is exactly `0` at the instant the oldest recorded call exits the
window. -/
theorem monotonic_cooldown (rl : RateLimiter) (key : String) (t1 t2 : ℚ)
    (hne : rl.records key ≠ []) (hmem : key ∈ rl.keys) (ht : t1 < t2)
    (hpos : 0 < (rl.get_retry_after key t1).1) :
    (rl.get_retry_after key t2).1 < (rl.get_retry_after key t1).1 ∧
    (rl.get_retry_after key (listMin (rl.records key) + rl.time_frame)).1 = 0 := by
  have htouch : rl.touch key = rl := touch_of_mem hmem
  have hval : ∀ t : ℚ, (rl.get_retry_after key t).1 =
      max 0 (rl.time_frame - (t - listMin (rl.records key))) := by
    intro t
    rw [RateLimiter.get_retry_after]
    simp [htouch, hne, qmax_eq_max]
  rw [hval t1] at hpos
  have hx1 : 0 < rl.time_frame - (t1 - listMin (rl.records key)) := by
    rcases lt_max_iff.1 hpos with h | h
    · exact absurd h (lt_irrefl 0)
    · exact h
  constructor
  · rw [hval t1, hval t2, max_eq_right (le_of_lt hx1)]
    exact max_lt hx1 (by linarith)
  · rw [hval]
    have : rl.time_frame - (listMin (rl.records key) + rl.time_frame -
        listMin (rl.records key)) = 0 := by ring
    rw [this, max_self]

/-- Witness for C8: the limiter holding one record at `t = 0` with window
`10`, observed at `t1 = 3` and `t2 = 5`. -/
theorem monotonic_cooldown_witness :
    ((((RateLimiter.init 3 10).add_call "u" 0).2).records "u" ≠ []) ∧
    ("u" ∈ (((RateLimiter.init 3 10).add_call "u" 0).2).keys) ∧
    ((3 : ℚ) < 5) ∧
    (0 < ((((RateLimiter.init 3 10).add_call "u" 0).2).get_retry_after "u" 3).1) ∧
    (((((RateLimiter.init 3 10).add_call "u" 0).2).get_retry_after "u" 5).1 <
       ((((RateLimiter.init 3 10).add_call "u" 0).2).get_retry_after "u" 3).1 ∧
     ((((RateLimiter.init 3 10).add_call "u" 0).2).get_retry_after "u"
        (listMin ((((RateLimiter.init 3 10).add_call "u" 0).2).records "u") +
          (((RateLimiter.init 3 10).add_call "u" 0).2).time_frame)).1 = 0) :=
  ⟨by norm_num [RateLimiter.init, RateLimiter.add_call, RateLimiter.touch],
   by norm_num [RateLimiter.init, RateLimiter.add_call, RateLimiter.touch],
   by norm_num,
   by norm_num [RateLimiter.init, RateLimiter.add_call, RateLimiter.touch,
     RateLimiter.get_retry_after, listMin, qmax],
   monotonic_cooldown _ "u" 3 5
     (by norm_num [RateLimiter.init, RateLimiter.add_call, RateLimiter.touch])
     (by norm_num [RateLimiter.init, RateLimiter.add_call, RateLimiter.touch])
     (by norm_num)
     (by norm_num [RateLimiter.init, RateLimiter.add_call, RateLimiter.touch,
       RateLimiter.get_retry_after, listMin, qmax])⟩

/-- Claim C3: `get_gemini_response` makes at most `3` attempts and the
delays it sleeps form a prefix of the doubling schedule `2, 4, 8`; in
particular, with two transient failures followed by a success it returns
the success text, having slept `2` then `4` before the third attempt, and
makes exactly `3` attempts. -/
theorem backoff_schedule (outcomes : ℕ → Outcome) (t e1 e2 : String)
    (h0 : outcomes 0 = .transient e1) (h1 : outcomes 1 = .transient e2)
    (h2 : outcomes 2 = .success t) :
    (∀ oc : ℕ → Outcome, (get_gemini_response oc).attempts ≤ 3 ∧
      ∃ n : ℕ, (get_gemini_response oc).sleeps = List.take n [2, 4, 8]) ∧
    get_gemini_response outcomes = ⟨some t, [2, 4], 3⟩ := by
  constructor
  · intro oc
    rcases ho0 : oc 0 with t0 | _ | e0
    · refine ⟨?_, 0, ?_⟩ <;> simp [get_gemini_response, geminiAttempt, ho0]
    · refine ⟨?_, 0, ?_⟩ <;> simp [get_gemini_response, geminiAttempt, ho0]
    · rcases ho1 : oc 1 with t1 | _ | e1'
      · refine ⟨?_, 1, ?_⟩ <;> simp [get_gemini_response, geminiAttempt, ho0, ho1]
      · refine ⟨?_, 1, ?_⟩ <;> simp [get_gemini_response, geminiAttempt, ho0, ho1]
      · rcases ho2 : oc 2 with t2 | _ | e2'
        · refine ⟨?_, 2, ?_⟩ <;> simp [get_gemini_response, geminiAttempt, ho0, ho1, ho2]
        · refine ⟨?_, 2, ?_⟩ <;> simp [get_gemini_response, geminiAttempt, ho0, ho1, ho2]
        · refine ⟨?_, 2, ?_⟩ <;> simp [get_gemini_response, geminiAttempt, ho0, ho1, ho2]
  · simp [get_gemini_response, geminiAttempt, h0, h1, h2]

/-- Witness for C3: transient failures on attempts 0 and 1, success
`"ok"` on attempt 2. -/
theorem backoff_schedule_witness :
    ((fun n => if n = 0 then Outcome.transient "boom0"
               else if n = 1 then Outcome.transient "boom1"
               else Outcome.success "ok") 0 = Outcome.transient "boom0") ∧
    ((∀ oc : ℕ → Outcome, (get_gemini_response oc).attempts ≤ 3 ∧
        ∃ n : ℕ, (get_gemini_response oc).sleeps = List.take n [2, 4, 8]) ∧
      get_gemini_response
        (fun n => if n = 0 then Outcome.transient "boom0"
                  else if n = 1 then Outcome.transient "boom1"
                  else Outcome.success "ok") = ⟨some "ok", [2, 4], 3⟩) :=
  ⟨rfl, backoff_schedule _ "ok" "boom0" "boom1" rfl rfl rfl⟩

/-- Claim C4: a `BlockedPromptException` signalled on any attempt (in
particular the first) makes `get_gemini_response` return the fixed refusal
text immediately: one attempt made, no sleep, no retry. -/
theorem blocked_short_circuit (outcomes : ℕ → Outcome) (n attempt retry_delay : ℕ)
    (h : outcomes attempt = .blocked) (h0 : outcomes 0 = .blocked) :
    geminiAttempt outcomes (n + 1) attempt retry_delay = ⟨some blockedText, [], 1⟩ ∧
    get_gemini_response outcomes = ⟨some blockedText, [], 1⟩ := by
  constructor
  · simp [geminiAttempt, h]
  · simp [get_gemini_response, geminiAttempt, h0]

/-- Witness for C4: the service signalling blocked content on every
attempt. -/
theorem blocked_short_circuit_witness :
    ((fun _ : ℕ => Outcome.blocked) 0 = Outcome.blocked) ∧
    (geminiAttempt (fun _ : ℕ => Outcome.blocked) 1 0 2 = ⟨some blockedText, [], 1⟩ ∧
     get_gemini_response (fun _ : ℕ => Outcome.blocked) = ⟨some blockedText, [], 1⟩) :=
  ⟨rfl, blocked_short_circuit (fun _ => Outcome.blocked) 0 0 2 rfl rfl⟩

/-- Claim C5: `forget` with target `"all"` invoked without administrator
permission leaves the conversation store completely unchanged and reports
the permission-denied rejection. -/
theorem forget_all_unauthorized (convs : List (String × Session)) (author : String)
    (target : String) (h : lower target = "all") :
    forget convs author target false = (convs, ForgetReply.permissionDenied) := by
  simp [forget, h]

/-- Witness for C5: target `"all"`, non-admin caller, one stored session. -/
theorem forget_all_unauthorized_witness :
    lower "all" = "all" ∧
    forget [("user:1", ⟨"chat1", 0⟩)] "2" "all" false =
      ([("user:1", ⟨"chat1", 0⟩)], ForgetReply.permissionDenied) :=
  ⟨by decide, forget_all_unauthorized _ "2" "all" (by decide)⟩

/-- Claim C9: `forget` with target `"user"` for a user with no stored
session leaves the store unchanged yet reports one conversation cleared:
the count is `len(keys_to_remove)`, not the number actually removed. -/
theorem forget_missing_user_reports_one (convs : List (String × Session))
    (author : String) (is_admin : Bool)
    (h : ("user:" ++ author) ∉ convs.map Prod.fst) :
    forget convs author "user" is_admin =
      (convs, ForgetReply.cleared 1 "your conversation history") := by
  have hl : lower "user" = "user" := by decide
  simp [forget, finishForget, hl]
  intro a b hab he
  exact h (he ▸ List.mem_map_of_mem Prod.fst hab)

/-- Witness for C9: user `"42"` with an empty store. -/
theorem forget_missing_user_reports_one_witness :
    (("user:" ++ "42") ∉ ([] : List (String × Session)).map Prod.fst) ∧
    forget ([] : List (String × Session)) "42" "user" false =
      ([], ForgetReply.cleared 1 "your conversation history") :=
  ⟨by decide, forget_missing_user_reports_one [] "42" false (by decide)⟩

/-- Claim C6: one `check_conversation_age` sweep deletes exactly the
sessions whose age strictly exceeds seven days, keeps all younger sessions
(in order), and the count it reports is exactly the number of sessions it
deleted; concretely, sessions aged 6 days and 8 days lose only the 8-day
one. -/
theorem reaper_ttl_selectivity (convs : List (String × Session)) (now : ℚ) :
    (check_conversation_age convs now).1 =
      convs.filter (fun p => decide (now - p.2.created_at ≤ sevenDays)) ∧
    (check_conversation_age convs now).2 =
      convs.countP (fun p => decide (sevenDays < now - p.2.created_at)) ∧
    check_conversation_age
        [("user:a", ⟨"chatA", 800000 - 6 * 86400⟩), ("user:b", ⟨"chatB", 800000 - 8 * 86400⟩)]
        800000 =
      ([("user:a", ⟨"chatA", 800000 - 6 * 86400⟩)], 1) := by
  have main : ∀ l : List (String × Session),
      (check_conversation_age l now).1 =
        l.filter (fun p => decide (now - p.2.created_at ≤ sevenDays)) ∧
      (check_conversation_age l now).2 =
        l.countP (fun p => decide (sevenDays < now - p.2.created_at)) := by
    intro l
    induction l with
    | nil => exact ⟨rfl, rfl⟩
    | cons p rest ih =>
      simp only [check_conversation_age]
      by_cases hc : sevenDays < now - p.2.created_at
      · rw [if_pos hc]
        refine ⟨?_, ?_⟩
        · rw [List.filter_cons, ih.1, decide_eq_false (not_le.2 hc)]
          simp
        · rw [List.countP_cons, ih.2, decide_eq_true hc]
          simp
      · rw [if_neg hc]
        refine ⟨?_, ?_⟩
        · rw [List.filter_cons, ih.1, decide_eq_true (not_lt.1 hc)]
          simp
        · rw [List.countP_cons, ih.2, decide_eq_false hc]
          simp
  refine ⟨(main convs).1, (main convs).2, ?_⟩
  norm_num [check_conversation_age, sevenDays]

theorem admittedTimes_cons (key : String) (rl : RateLimiter) (k : String) (s : ℚ)
    (rest : List (String × ℚ)) :
    admittedTimes key rl ((k, s) :: rest) =
      (if k = key ∧ (rl.add_call k s).1 = false then [s] else []) ++
        admittedTimes key (rl.add_call k s).2 rest := rfl

theorem window_bound_aux (mc : ℕ) (W t : ℚ) (hW : 0 < W) (key : String) :
    ∀ (events : List (String × ℚ)) (rl : RateLimiter) (A : List ℚ) (q : ℚ),
      rl.max_calls = mc →
      rl.time_frame = W →
      rl.records key = A.filter (fun r => decide (q - r < W)) →
      (key ∉ rl.keys → rl.records key = []) →
      (∀ e ∈ events, q ≤ e.2) →
      (events.map Prod.snd).Pairwise (· ≤ ·) →
      A.countP (fun r => decide (t - W < r ∧ r ≤ t)) ≤ mc →
      (A ++ admittedTimes key rl events).countP (fun r => decide (t - W < r ∧ r ≤ t)) ≤ mc := by
  intro events
  induction events with
  | nil =>
    intro rl A q _ _ _ _ _ _ hA
    simpa [admittedTimes] using hA
  | cons e rest ih =>
    intro rl A q hmc hW' hrec hcanon hq hpair hA
    obtain ⟨k, s⟩ := e
    have hqs : q ≤ s := hq (k, s) (List.mem_cons_self _ _)
    have hpair0 : (s :: rest.map Prod.snd).Pairwise (· ≤ ·) := by simpa using hpair
    have hrestq : ∀ e ∈ rest, s ≤ e.2 := by
      intro e he
      exact (List.pairwise_cons.1 hpair0).1 e.2 (List.mem_map_of_mem Prod.snd he)
    have hpair' : (rest.map Prod.snd).Pairwise (· ≤ ·) := (List.pairwise_cons.1 hpair0).2
    by_cases hk : k = key
    · subst hk
      have hrecT : (rl.touch k).records k = rl.records k := touch_records_self hcanon
      have hcall : rl.add_call k s =
          (if mc ≤ (A.filter (fun r => decide (s - r < W))).length then
             (true, { rl.touch k with records := fun k' =>
               (if k' = k then A.filter (fun r => decide (s - r < W))
                else (rl.touch k).records k') })
           else
             (false, { rl.touch k with records := fun k' =>
               (if k' = k then A.filter (fun r => decide (s - r < W)) ++ [s]
                else (rl.touch k).records k') })) := by
        rw [RateLimiter.add_call]
        simp only [touch_time_frame, hW', touch_max_calls, hmc, hrecT, hrec,
          filter_window_step A W q s hqs]
      by_cases hlim : mc ≤ (A.filter (fun r => decide (s - r < W))).length
      · -- the call at time s is rejected: the key records become the pruned list
        have hfst : (rl.add_call k s).1 = true := by rw [hcall, if_pos hlim]
        have hsnd : (rl.add_call k s).2 =
            { rl.touch k with records := fun k' =>
              (if k' = k then A.filter (fun r => decide (s - r < W))
               else (rl.touch k).records k') } := by
          rw [hcall, if_pos hlim]
        rw [admittedTimes_cons, hfst, hsnd,
          show (if k = k ∧ (true : Bool) = false then ([s] : List ℚ) else []) = [] by simp,
          List.nil_append]
        apply ih _ A s
        · exact (touch_max_calls rl k).trans hmc
        · exact (touch_time_frame rl k).trans hW'
        · simp
        · intro hnk
          exact absurd (touch_mem_keys rl k) hnk
        · exact hrestq
        · exact hpair'
        · exact hA
      · -- the call at time s is admitted and appended
        have hfst : (rl.add_call k s).1 = false := by rw [hcall, if_neg hlim]
        have hsnd : (rl.add_call k s).2 =
            { rl.touch k with records := fun k' =>
              (if k' = k then A.filter (fun r => decide (s - r < W)) ++ [s]
               else (rl.touch k).records k') } := by
          rw [hcall, if_neg hlim]
        rw [admittedTimes_cons, hfst, hsnd,
          show (if k = k ∧ (false : Bool) = false then ([s] : List ℚ) else []) = [s] by simp,
          ← List.append_assoc]
        apply ih _ (A ++ [s]) s
        · exact (touch_max_calls rl k).trans hmc
        · exact (touch_time_frame rl k).trans hW'
        · simp [List.filter_append, sub_self, hW]
        · intro hnk
          exact absurd (touch_mem_keys rl k) hnk
        · exact hrestq
        · exact hpair'
        · -- the window count including the new admission stays within mc
          rw [List.countP_append]
          by_cases hs : t - W < s ∧ s ≤ t
          · have hcnt : A.countP (fun r => decide (t - W < r ∧ r ≤ t)) ≤
                A.countP (fun r => decide (s - r < W)) := by
              apply List.countP_mono_left
              intro r _ hr
              have hr' : t - W < r ∧ r ≤ t := of_decide_eq_true hr
              have hsr : s - r < W := by
                rcases hs with ⟨hs1, hs2⟩
                rcases hr' with ⟨hr1, hr2⟩
                linarith
              simpa using hsr
            have hflt : A.countP (fun r => decide (s - r < W)) =
                (A.filter (fun r => decide (s - r < W))).length :=
              List.countP_eq_length_filter ..
            rw [hflt] at hcnt
            have hone : List.countP (fun r => decide (t - W < r ∧ r ≤ t)) [s] = 1 := by
              simp [hs]
            rw [hone]
            omega
          · have hzero : List.countP (fun r => decide (t - W < r ∧ r ≤ t)) [s] = 0 := by
              simp [hs]
            rw [hzero]
            omega
    · -- a call for a different key leaves the tracked key state unchanged
      have hrec1 : ((rl.add_call k s).2).records key = rl.records key :=
        add_call_records_ne s (fun he => hk he.symm)
      rw [admittedTimes_cons,
        show (if k = key ∧ (rl.add_call k s).1 = false then ([s] : List ℚ) else []) = [] by
          simp [hk],
        List.nil_append]
      apply ih _ A q
      · exact (add_call_max_calls rl k s).trans hmc
      · exact (add_call_time_frame rl k s).trans hW'
      · exact hrec1.trans hrec
      · intro hnk
        have hnk0 : key ∉ rl.keys := fun hmem => hnk (add_call_keys_of_mem s hmem)
        exact hrec1.trans (hcanon hnk0)
      · exact fun e he => hq e (List.mem_cons_of_mem _ he)
      · exact hpair'
      · exact hA

/-- Claim C1: window bound.  Over any sequence of `add_call` invocations at
nondecreasing times against a freshly constructed limiter, for every key
and every time `t`, the number of calls admitted for that key with
timestamp in `(t - W, t]` never exceeds `max_calls`. -/
theorem window_bound (mc : ℕ) (W : ℚ) (events : List (String × ℚ)) (key : String) (t : ℚ)
    (hW : 0 < W) (hmono : (events.map Prod.snd).Pairwise (· ≤ ·)) :
    (admittedTimes key (RateLimiter.init mc W) events).countP
      (fun r => decide (t - W < r ∧ r ≤ t)) ≤ mc := by
  cases events with
  | nil => simp [admittedTimes]
  | cons e rest =>
    obtain ⟨k, s⟩ := e
    have h := window_bound_aux mc W t hW key ((k, s) :: rest) (RateLimiter.init mc W) [] s
      rfl rfl rfl (fun _ => rfl) ?_ hmono (Nat.zero_le mc)
    · simpa using h
    · intro e he
      rcases List.mem_cons.1 he with h1 | h1
      · rw [h1]
      · have hpair0 : (s :: rest.map Prod.snd).Pairwise (· ≤ ·) := by simpa using hmono
        exact (List.pairwise_cons.1 hpair0).1 e.2 (List.mem_map_of_mem Prod.snd h1)

/-- Witness for C1: five calls on key `"u"` with `max_calls = 3`,
`window = 10`, observed at `t = 3`. -/
theorem window_bound_witness :
    (0 : ℚ) < 10 ∧
    (([("u", (0 : ℚ)), ("u", 1), ("u", 2), ("u", 3), ("u", 11)].map Prod.snd).Pairwise
      (· ≤ ·)) ∧
    (admittedTimes "u" (RateLimiter.init 3 10)
        [("u", 0), ("u", 1), ("u", 2), ("u", 3), ("u", 11)]).countP
      (fun r => decide ((3 : ℚ) - 10 < r ∧ r ≤ 3)) ≤ 3 :=
  ⟨by norm_num, by norm_num,
   window_bound 3 10 [("u", 0), ("u", 1), ("u", 2), ("u", 3), ("u", 11)] "u" 3
     (by norm_num) (by norm_num)⟩
